import Mathlib

set_option maxHeartbeats 1000000

/-! Shallow embedding of the Stan backend layer of prophet-nogpl
(src/python/prophet/models.py) and proofs about its behaviour:
option handling, backend registry lookup, fit argument defaults with the
Newton fallback, sampling defaults, draw concatenation, per-parameter shape
normalization, and the column demultiplexer stan_to_dict_numpy. -/

/-! ## Backend state and set_options (models.py 25-40) -/

structure BackendState where
  newton_fallback : Bool
deriving DecidableEq

/-- IStanBackend.__init__ (models.py 26-29): newton_fallback starts out true. -/
def IStanBackend.initState : BackendState := { newton_fallback := true }

/-- IStanBackend.set_options (models.py 31-40): walks the supplied key/value
pairs in order, updating newton_fallback and raising ValueError at the first
unknown key.  The result pairs the state at return (or raise) time with the
offending key, if any: the raised exception does not roll back earlier
assignments to the instance. -/
def IStanBackend.set_options (st : BackendState) :
    List (String × Bool) → BackendState × Option String
  | [] => (st, none)
  | (k, v) :: rest =>
      if k = "newton_fallback" then
        IStanBackend.set_options { newton_fallback := v } rest
      else (st, some k)

/-! ## Backend registry (models.py 333-342) -/

inductive BackendClass where
  | PyStanBackend
  | CmdStanPyBackend
deriving DecidableEq

/-- StanBackendEnum.get_backend_class (models.py 337-342): exact Enum member
lookup over PYSTAN and CMDSTANPY; the KeyError is re-raised as a ValueError
with the "Unknown stan backend" message. -/
def StanBackendEnum.get_backend_class (name : String) : Except String BackendClass :=
  if name = "PYSTAN" then Except.ok BackendClass.PyStanBackend
  else if name = "CMDSTANPY" then Except.ok BackendClass.CmdStanPyBackend
  else Except.error ("Unknown stan backend: " ++ name)

/-! ## Fit argument construction and the Newton fallback
(models.py 128-153 for CmdStanPyBackend, 294-314 for PyStanBackend; the two
bodies share this exact structure, differing only in the engine method that
`optimize` stands for and in CmdStanPy writing int(1e4) where PyStan passes
the equal float 1e4). -/

structure FitArgs (D I : Type) where
  data : D
  inits : I
  algorithm : String
  iter : Nat
deriving DecidableEq

structure FitOverrides where
  algorithm : Option String
  iter : Option Nat
deriving DecidableEq

/-- Fit argument defaults (models.py 134-140 and 296-302): algorithm is
Newton when the data's T field is below 100 and LBFGS otherwise, iter is
10000, then args.update(kwargs) replaces whichever keys the caller supplied. -/
def buildFitArgs {D I : Type} (d : D) (ini : I) (T : Int) (kw : FitOverrides) :
    FitArgs D I :=
  let args : FitArgs D I :=
    { data := d, inits := ini,
      algorithm := if T < 100 then "Newton" else "LBFGS",
      iter := 10000 }
  { args with
      algorithm := kw.algorithm.getD args.algorithm,
      iter := kw.iter.getD args.iter }

/-- Fit engine invocation with the Newton fallback (models.py 142-153 and
303-314): on a RuntimeError from the first call, when newton_fallback is set
and the attempted algorithm was not already Newton, the engine is called once
more with algorithm forced to Newton and everything else unchanged; otherwise
the error is re-raised.  The returned list records the arguments of each
engine invocation in order. -/
def runFit {D I E R : Type} (optimize : FitArgs D I → Except E R)
    (newton_fallback : Bool) (d : D) (ini : I) (T : Int) (kw : FitOverrides) :
    Except E R × List (FitArgs D I) :=
  let args := buildFitArgs d ini T kw
  match optimize args with
  | Except.ok r => (Except.ok r, [args])
  | Except.error e =>
      if newton_fallback = true ∧ args.algorithm ≠ "Newton" then
        let args2 := { args with algorithm := "Newton" }
        (optimize args2, [args, args2])
      else (Except.error e, [args])

/-! ## CmdStanPy sampling keyword handling (models.py 161-181) -/

structure SamplingOverrides where
  chains : Option Nat
  iter_sampling : Option Nat
  iter_warmup : Option Nat
deriving DecidableEq

structure CmdStanSamplingArgs where
  chains : Nat
  iter_sampling : Nat
  iter_warmup : Nat
deriving DecidableEq

/-- CmdStanPyBackend.sampling keyword handling (models.py 172-179): chains
defaults to 4 when the caller supplied none; iter_sampling is assigned
samples // 2 unconditionally, overwriting any caller-supplied value;
iter_warmup defaults to samples // 2 when the caller supplied none. -/
def CmdStanPyBackend.samplingArgs (samples : Nat) (kw : SamplingOverrides) :
    CmdStanSamplingArgs :=
  let chains := match kw.chains with
    | none => 4
    | some c => c
  let iter_half := samples / 2
  let iter_warmup := match kw.iter_warmup with
    | none => iter_half
    | some w => w
  { chains := chains, iter_sampling := iter_half, iter_warmup := iter_warmup }

/-! ## CmdStanPy draw concatenation (models.py 181-184) -/

/-- CmdStanPyBackend.sampling draw flattening (models.py 182-184): the
engine's draws array has shape (draws_per_chain, chains, columns) and is
reshaped row-major to (draws_per_chain * chains, columns); on the
draw-then-chain nested-list view of that array this is List.flatten. -/
def concatChains {Q : Type} (res : List (List (List Q))) : List (List Q) :=
  res.flatten

/-- Chain-major concatenation as the claim describes it: all draws of chain 0
in draw order, then all draws of chain 1, and so on. -/
def chainMajorConcat {Q : Type} (res : List (List (List Q))) : List (List Q) :=
  res.transpose.flatten

/-! ## Per-parameter shape normalization after sampling
(models.py 187-193 for CmdStanPyBackend, 287-291 for PyStanBackend) -/

inductive NpArray (Q : Type) where
  | one : List Q → NpArray Q
  | two : List (List Q) → NpArray Q
deriving DecidableEq

def NpArray.ndim {Q : Type} : NpArray Q → Nat
  | NpArray.one _ => 1
  | NpArray.two _ => 2

def NpArray.flatten {Q : Type} : NpArray Q → List Q
  | NpArray.one l => l
  | NpArray.two m => m.flatten

/-- numpy reshape((-1, 1)): a column vector of the row-major flattening. -/
def NpArray.reshapeCol {Q : Type} (a : NpArray Q) : NpArray Q :=
  NpArray.two (a.flatten.map (fun x => [x]))

/-- CmdStanPyBackend.sampling per-parameter normalization (models.py 187-193)
of one rectangular 2-D block produced by stan_to_dict_numpy.  s is the shape
captured before the first reshape; a width-1 block is squeezed to 1-D
(reshape((s[0],)) of an (n, 1) block is its row-major flattening, List.flatten);
the delta/beta branch then tests len(s) < 2 on that stale pre-squeeze shape,
which always has length 2 here. -/
def CmdStanPyBackend.normalizeParam {Q : Type} (par : String) (m : List (List Q)) :
    NpArray Q :=
  let s : List Nat := [m.length, (m.headD []).length]
  let a1 : NpArray Q := if s.getD 1 0 = 1 then NpArray.one m.flatten else NpArray.two m
  if (par = "delta" ∨ par = "beta") ∧ s.length < 2 then a1.reshapeCol else a1

/-- PyStanBackend.sampling per-parameter shaping (models.py 287-291): delta
and beta are reshaped to a column vector when 1-dimensional, testing the live
shape of the current value. -/
def PyStanBackend.normalizeParam {Q : Type} (par : String) (a : NpArray Q) : NpArray Q :=
  if (par = "delta" ∨ par = "beta") ∧ a.ndim < 2 then a.reshapeCol else a

/-! ## List indexing helpers -/

lemma getD_append_lt {ρ : Type} (d : ρ) :
    ∀ (l1 l2 : List ρ) (j : Nat), j < l1.length → (l1 ++ l2).getD j d = l1.getD j d := by
  intro l1
  induction l1 with
  | nil => intro l2 j h; simp at h
  | cons x xs ih =>
      intro l2 j h
      cases j with
      | zero => rfl
      | succ j =>
          simp only [List.cons_append, List.getD_cons_succ]
          exact ih l2 j (by simpa using h)

lemma getD_append_len {ρ : Type} (d : ρ) :
    ∀ (l1 l2 : List ρ) (j : Nat), (l1 ++ l2).getD (l1.length + j) d = l2.getD j d := by
  intro l1
  induction l1 with
  | nil => intro l2 j; simp
  | cons x xs ih =>
      intro l2 j
      have h : (x :: xs).length + j = (xs.length + j) + 1 := by
        rw [List.length_cons]; omega
      rw [h]
      simp only [List.cons_append, List.getD_cons_succ]
      exact ih l2 j

lemma getD_map_lt {α β : Type} (f : α → β) (db : β) (da : α) :
    ∀ (l : List α) (j : Nat), j < l.length → (l.map f).getD j db = f (l.getD j da) := by
  intro l
  induction l with
  | nil => intro j h; simp at h
  | cons x xs ih =>
      intro j h
      cases j with
      | zero => rfl
      | succ j =>
          simp only [List.map_cons, List.getD_cons_succ]
          exact ih j (by simpa using h)

lemma join_length_uniform {ρ : Type} :
    ∀ (res : List (List ρ)) (c : Nat), (∀ ch ∈ res, ch.length = c) →
      res.flatten.length = res.length * c := by
  intro res
  induction res with
  | nil => intro c _; simp
  | cons ch rest ih =>
      intro c h
      have hc : ch.length = c := h ch (by simp)
      have hr : rest.flatten.length = rest.length * c :=
        ih c (fun x hx => h x (by simp [hx]))
      simp only [List.flatten_cons, List.length_append, List.length_cons, hc, hr]
      ring

lemma join_getD {ρ : Type} (d : ρ) :
    ∀ (res : List (List ρ)) (c i j : Nat), (∀ ch ∈ res, ch.length = c) →
      i < res.length → j < c →
      res.flatten.getD (i * c + j) d = (res.getD i []).getD j d := by
  intro res
  induction res with
  | nil => intro c i j _ hi _; simp at hi
  | cons ch rest ih =>
      intro c i j h hi hj
      have hc : ch.length = c := h ch (by simp)
      cases i with
      | zero =>
          simp only [List.flatten_cons, List.getD_cons_zero, Nat.zero_mul, Nat.zero_add]
          exact getD_append_lt d ch rest.flatten j (by rw [hc]; exact hj)
      | succ i =>
          have harith : (i + 1) * c + j = ch.length + (i * c + j) := by
            rw [hc]; ring
          simp only [List.flatten_cons, List.getD_cons_succ]
          rw [harith, getD_append_len]
          exact ih c i j (fun x hx => h x (by simp [hx])) (by simpa using hi) hj

/-! ## Theorems: options, registry, fit, sampling defaults, draw order,
shape normalization -/

/-- C8: newton_fallback is true at construction; set_options with the key
newton_fallback updates it to the supplied value; set_options with any other
key reports that key as unknown instead of silently ignoring it. -/
theorem C8_set_options :
    IStanBackend.initState.newton_fallback = true
    ∧ (∀ (st : BackendState) (v : Bool),
        IStanBackend.set_options st [("newton_fallback", v)]
          = ({ newton_fallback := v }, none))
    ∧ (∀ (st : BackendState) (k : String) (v : Bool), k ≠ "newton_fallback" →
        IStanBackend.set_options st [(k, v)] = (st, some k)) := by
  refine ⟨rfl, ?_, ?_⟩
  · intro st v
    simp [IStanBackend.set_options]
  · intro st k v hk
    simp [IStanBackend.set_options, hk]

theorem C8_witness :
    IStanBackend.set_options IStanBackend.initState [("bogus", true)]
      = (IStanBackend.initState, some "bogus") :=
  C8_set_options.2.2 IStanBackend.initState "bogus" true (by decide)

/-- C9: set_options is not atomic on error — every newton_fallback assignment
iterated before the first unknown key has already been applied to the state at
the moment the unknown key is reported. -/
theorem C9_set_options_not_atomic :
    ∀ (st : BackendState) (vs : List Bool) (k : String) (v : Bool)
      (rest : List (String × Bool)), k ≠ "newton_fallback" →
      IStanBackend.set_options st
          (vs.map (fun b => ("newton_fallback", b)) ++ (k, v) :: rest)
        = ({ newton_fallback := vs.getLastD st.newton_fallback }, some k) := by
  intro st vs
  induction vs generalizing st with
  | nil =>
      intro k v rest hk
      simp [IStanBackend.set_options, hk]
  | cons b bs ih =>
      intro k v rest hk
      simp only [List.map_cons, List.cons_append, IStanBackend.set_options,
        if_pos rfl, List.getLastD_cons]
      exact ih { newton_fallback := b } k v rest hk

theorem C9_witness :
    IStanBackend.set_options IStanBackend.initState
        [("newton_fallback", false), ("bogus", true)]
      = ({ newton_fallback := false }, some "bogus") :=
  C9_set_options_not_atomic IStanBackend.initState [false] "bogus" true [] (by decide)

/-- C7: get_backend_class is an exact case-sensitive lookup over the fixed
two-element backend set, returning the PyStan class for "PYSTAN", the
CmdStanPy class for "CMDSTANPY", and the unknown-backend error for every
other string. -/
theorem C7_get_backend_class :
    StanBackendEnum.get_backend_class "PYSTAN" = Except.ok BackendClass.PyStanBackend
    ∧ StanBackendEnum.get_backend_class "CMDSTANPY"
        = Except.ok BackendClass.CmdStanPyBackend
    ∧ ∀ (name : String), name ≠ "PYSTAN" → name ≠ "CMDSTANPY" →
        StanBackendEnum.get_backend_class name
          = Except.error ("Unknown stan backend: " ++ name) := by
  refine ⟨rfl, rfl, ?_⟩
  intro name h1 h2
  simp [StanBackendEnum.get_backend_class, h1, h2]

theorem C7_witness :
    StanBackendEnum.get_backend_class "nonexistent"
      = Except.error ("Unknown stan backend: " ++ "nonexistent") :=
  C7_get_backend_class.2.2 "nonexistent" (by decide) (by decide)

/-- C6: with no override the fit algorithm defaults to Newton exactly when
T < 100 and to LBFGS otherwise, with iteration cap 10000; caller-supplied
overrides replace the computed defaults, and the first engine invocation
receives exactly the resulting arguments. -/
theorem C6_fit_defaults :
    ∀ {D I E R : Type} (optimize : FitArgs D I → Except E R) (fb : Bool)
      (d : D) (ini : I) (T : Int) (kw : FitOverrides),
      buildFitArgs d ini T kw
        = { data := d, inits := ini,
            algorithm := kw.algorithm.getD (if T < 100 then "Newton" else "LBFGS"),
            iter := kw.iter.getD 10000 }
      ∧ (runFit optimize fb d ini T kw).2.head? = some (buildFitArgs d ini T kw) := by
  intro D I E R optimize fb d ini T kw
  refine ⟨rfl, ?_⟩
  cases h : optimize (buildFitArgs d ini T kw) with
  | ok r => simp [runFit, h]
  | error e =>
      simp only [runFit, h]
      split
      · rfl
      · rfl

/-- C2: when the first engine invocation fails, the fallback option is on and
the attempted algorithm was not Newton, fit retries exactly once with the
algorithm forced to Newton and the same data, inits and iteration count, and
returns whatever the retry produced; in every other failure case the original
error is returned unchanged after a single invocation; the engine never runs
more than twice. -/
theorem C2_fit_fallback :
    ∀ {D I E R : Type} (optimize : FitArgs D I → Except E R) (fb : Bool)
      (d : D) (ini : I) (T : Int) (kw : FitOverrides),
      (runFit optimize fb d ini T kw).2.length ≤ 2
      ∧ (∀ e : E, optimize (buildFitArgs d ini T kw) = Except.error e →
          fb = true → (buildFitArgs d ini T kw).algorithm ≠ "Newton" →
          runFit optimize fb d ini T kw
            = (optimize { buildFitArgs d ini T kw with algorithm := "Newton" },
               [buildFitArgs d ini T kw,
                { buildFitArgs d ini T kw with algorithm := "Newton" }])
            ∧ ({ buildFitArgs d ini T kw with algorithm := "Newton" } : FitArgs D I).data = d
            ∧ ({ buildFitArgs d ini T kw with algorithm := "Newton" } : FitArgs D I).inits
                = ini)
      ∧ (∀ e : E, optimize (buildFitArgs d ini T kw) = Except.error e →
          fb = false ∨ (buildFitArgs d ini T kw).algorithm = "Newton" →
          runFit optimize fb d ini T kw
            = (Except.error e, [buildFitArgs d ini T kw])) := by
  intro D I E R optimize fb d ini T kw
  refine ⟨?_, ?_, ?_⟩
  · cases h : optimize (buildFitArgs d ini T kw) with
    | ok r => simp [runFit, h]
    | error e =>
        simp only [runFit, h]
        split
        · simp
        · simp
  · intro e he hfb halg
    refine ⟨?_, rfl, rfl⟩
    simp only [runFit, he]
    rw [if_pos ⟨hfb, halg⟩]
  · intro e he hcase
    have hneg : ¬ (fb = true ∧ (buildFitArgs d ini T kw).algorithm ≠ "Newton") := by
      rcases hcase with h | h
      · intro hc; rw [h] at hc; exact Bool.false_ne_true hc.1
      · intro hc; exact hc.2 h
    simp only [runFit, he]
    rw [if_neg hneg]

theorem C2_witness :
    runFit (fun a : FitArgs Unit Unit =>
        (Except.error (if a.algorithm = "LBFGS" then 7 else 9) : Except Nat Nat))
      true () () 500 ⟨none, none⟩
      = (Except.error 9,
         [{ data := (), inits := (), algorithm := "LBFGS", iter := 10000 },
          { data := (), inits := (), algorithm := "Newton", iter := 10000 }]) := by
  have h := (C2_fit_fallback
      (fun a : FitArgs Unit Unit =>
        (Except.error (if a.algorithm = "LBFGS" then 7 else 9) : Except Nat Nat))
      true () () 500 ⟨none, none⟩).2.1 7 rfl rfl (by decide)
  exact h.1.trans (by rfl)

/-- C4 fails on the code: in CmdStanPyBackend.sampling a caller-supplied
iter_sampling override of 7 with samples = 10 is overwritten with
samples // 2 = 5, so the override is not honoured. -/
theorem C4_counterexample :
    ¬ (CmdStanPyBackend.samplingArgs 10 ⟨none, some 7, none⟩).iter_sampling = 7 := by
  decide

/-- C4 (amended): in CmdStanPyBackend.sampling, chains defaults to 4 and
iter_warmup defaults to samples // 2, each replaced by the caller's override
when — and only when — that key is supplied; iter_sampling however is always
set to samples // 2, ignoring any caller override. -/
theorem C4_sampling_defaults :
    ∀ (samples : Nat) (kw : SamplingOverrides),
      CmdStanPyBackend.samplingArgs samples kw
        = { chains := kw.chains.getD 4,
            iter_sampling := samples / 2,
            iter_warmup := kw.iter_warmup.getD (samples / 2) } := by
  intro samples kw
  obtain ⟨c, s, w⟩ := kw
  cases c <;> cases w <;> rfl

/-- C5 fails on the code: the reshape concatenates the draws array
draw-major, not chain-major — with 2 draws per chain and 2 chains, draw 0 of
chain 1 comes second, where chain-major order would put draw 1 of chain 0. -/
theorem C5_counterexample :
    concatChains [[[(0 : Int)], [1]], [[2], [3]]]
      ≠ chainMajorConcat [[[(0 : Int)], [1]], [[2], [3]]] := by
  decide

/-- C5 (amended): the concatenated draw set has leading dimension
draws_per_chain * chains, and it is ordered draw-major: row i * chains + j is
draw i of chain j, i.e. draw 0 of every chain in chain order, then draw 1 of
every chain, and so on. -/
theorem C5_concat_draws :
    ∀ (res : List (List (List Int))) (c : Nat),
      (∀ ch ∈ res, ch.length = c) →
      (concatChains res).length = res.length * c
      ∧ ∀ (i j : Nat), i < res.length → j < c →
          (concatChains res).getD (i * c + j) [] = (res.getD i []).getD j [] := by
  intro res c h
  refine ⟨join_length_uniform res c h, ?_⟩
  intro i j hi hj
  exact join_getD [] res c i j h hi hj

theorem C5_witness :
    (concatChains [[[(0 : Int)], [1]], [[2], [3]]]).length = 2 * 2
    ∧ (concatChains [[[(0 : Int)], [1]], [[2], [3]]]).getD (1 * 2 + 0) [] = [2] := by
  have h := C5_concat_draws [[[(0 : Int)], [1]], [[2], [3]]] 2 (by decide)
  refine ⟨h.1, ?_⟩
  rw [h.2 1 0 (by decide) (by decide)]
  rfl

/-- C3 fails on the code: in CmdStanPyBackend.sampling a width-1 delta block
is squeezed to 1-D and never re-expanded, because the re-expansion branch
tests the stale pre-squeeze shape, whose length is always 2; the PyStan twin,
which tests the live shape of the value, does re-expand the same 1-D delta to
a column vector. -/
theorem C3_delta_squeezed :
    CmdStanPyBackend.normalizeParam "delta" [[(5 : Int)], [6]] = NpArray.one [5, 6]
    ∧ (CmdStanPyBackend.normalizeParam "delta" [[(5 : Int)], [6]]).ndim = 1
    ∧ CmdStanPyBackend.normalizeParam "k" [[(7 : Int)], [8]] = NpArray.one [7, 8]
    ∧ PyStanBackend.normalizeParam "delta" (NpArray.one [(5 : Int), 6])
        = NpArray.two [[5], [6]] := by
  refine ⟨rfl, rfl, rfl, rfl⟩

/-! ## Column demultiplexer stan_to_dict_numpy (models.py 224-268) -/

/-- Base name of an output column (models.py 236-241): the name is split on
"." when it contains a dot and on "[" otherwise, and the first piece kept. -/
def baseName (cname : String) : String :=
  if '.' ∈ cname.data then String.mk (cname.data.takeWhile (fun c => c ≠ '.'))
  else String.mk (cname.data.takeWhile (fun c => c ≠ '['))

/-- One pass of CmdStanPyBackend.stan_to_dict_numpy's column scan
(models.py 228-268), with the slice operation sl abstracting data[start:end]
(1-D input) or data[:, start:end] (2-D input); output is the ordered dict
built so far and prev, start, stop the loop state (stop is the source's end
variable).  A base name found already recorded when a run is closed — either
mid-scan or after the loop — raises the repeated-column RuntimeError. -/
def stanScan {δ : Type} (sl : Nat → Nat → δ) :
    List String → List (Option String × δ) → Option String → Nat → Nat →
    Except String (List (Option String × δ))
  | [], output, prev, start, stop =>
      if prev ∈ output.map Prod.fst then Except.error "Found repeated column name"
      else Except.ok (output ++ [(prev, sl start stop)])
  | cname :: rest, output, prev, start, stop =>
      let curr := baseName cname
      let prev1 := if prev = none then some curr else prev
      if some curr ≠ prev1 then
        if prev1 ∈ output.map Prod.fst then Except.error "Found repeated column name"
        else stanScan sl rest (output ++ [(prev1, sl start stop)]) (some curr) stop (stop + 1)
      else stanScan sl rest output prev1 start (stop + 1)

/-- Python slice data[start:stop] on a list. -/
def slice1 {Q : Type} (data : List Q) (start stop : Nat) : List Q :=
  (data.drop start).take (stop - start)

/-- numpy slice data[:, start:stop] on a row-nested 2-D array. -/
def slice2 {Q : Type} (data : List (List Q)) (start stop : Nat) : List (List Q) :=
  data.map (fun row => slice1 row start stop)

/-- stan_to_dict_numpy (models.py 224-268) on 1-D data. -/
def stan_to_dict_numpy1 {Q : Type} (column_names : List String) (data : List Q) :
    Except String (List (Option String × List Q)) :=
  stanScan (slice1 data) column_names [] none 0 0

/-- stan_to_dict_numpy (models.py 224-268) on 2-D data. -/
def stan_to_dict_numpy2 {Q : Type} (column_names : List String) (data : List (List Q)) :
    Except String (List (Option String × List (List Q))) :=
  stanScan (slice2 data) column_names [] none 0 0

/-- Closed-run view of the scan loop: given the groups still to process, the
pending run (name p spanning start..stop) is checked against the keys recorded
so far, recorded, and the next group taken up; the last pending run is closed
by the after-loop code. -/
def runsExcept {δ : Type} (sl : Nat → Nat → δ) :
    List (String × Nat) → List (Option String × δ) → String → Nat → Nat →
    Except String (List (Option String × δ))
  | [], output, p, start, stop =>
      if some p ∈ output.map Prod.fst then Except.error "Found repeated column name"
      else Except.ok (output ++ [(some p, sl start stop)])
  | (d, c) :: gs, output, p, start, stop =>
      if some p ∈ output.map Prod.fst then Except.error "Found repeated column name"
      else runsExcept sl gs (output ++ [(some p, sl start stop)]) d stop (stop + c)

/-- Entries as the claim describes them: one per base-name group in
first-seen order, valued by the slice of the aligned axis over that group's
contiguous index range. -/
def specEntries {δ : Type} (sl : Nat → Nat → δ) :
    List (String × Nat) → Nat → List (Option String × δ)
  | [], _ => []
  | (d, c) :: gs, off => (some d, sl off (off + c)) :: specEntries sl gs (off + c)

lemma stanScan_cons_start {δ : Type} (sl : Nat → Nat → δ) (cname : String)
    (rest : List String) (output : List (Option String × δ)) (start stop : Nat) :
    stanScan sl (cname :: rest) output none start stop
      = stanScan sl rest output (some (baseName cname)) start (stop + 1) := by
  simp [stanScan]

lemma stanScan_cons_same {δ : Type} (sl : Nat → Nat → δ) (cname p : String)
    (rest : List String) (output : List (Option String × δ)) (start stop : Nat)
    (h : baseName cname = p) :
    stanScan sl (cname :: rest) output (some p) start stop
      = stanScan sl rest output (some p) start (stop + 1) := by
  simp [stanScan, h]

lemma stanScan_cons_new {δ : Type} (sl : Nat → Nat → δ) (cname p : String)
    (rest : List String) (output : List (Option String × δ)) (start stop : Nat)
    (h : baseName cname ≠ p) :
    stanScan sl (cname :: rest) output (some p) start stop
      = if some p ∈ output.map Prod.fst then Except.error "Found repeated column name"
        else stanScan sl rest (output ++ [(some p, sl start stop)])
               (some (baseName cname)) stop (stop + 1) := by
  simp [stanScan, h]

lemma stanScan_run {δ : Type} (sl : Nat → Nat → δ) (p : String) :
    ∀ (run rest : List String) (output : List (Option String × δ)) (start stop : Nat),
      (∀ x ∈ run, baseName x = p) →
      stanScan sl (run ++ rest) output (some p) start stop
        = stanScan sl rest output (some p) start (stop + run.length) := by
  intro run
  induction run with
  | nil => intro rest output start stop _; simp
  | cons x xs ih =>
      intro rest output start stop h
      rw [List.cons_append,
        stanScan_cons_same sl x p (xs ++ rest) output start stop (h x (by simp)),
        ih rest output start (stop + 1) (fun y hy => h y (by simp [hy]))]
      have harith : stop + 1 + xs.length = stop + (x :: xs).length := by
        rw [List.length_cons]; omega
      rw [harith]

lemma stanScan_groups {δ : Type} (sl : Nat → Nat → δ) :
    ∀ (gs : List (String × Nat)) (cols : List String)
      (output : List (Option String × δ)) (p : String) (start stop : Nat),
      cols.map baseName = (gs.map (fun g => List.replicate g.2 g.1)).flatten →
      (∀ g ∈ gs, 1 ≤ g.2) →
      List.Chain' (fun a b => a ≠ b) (p :: gs.map Prod.fst) →
      stanScan sl cols output (some p) start stop = runsExcept sl gs output p start stop := by
  intro gs
  induction gs with
  | nil =>
      intro cols output p start stop hmap _ _
      have hnil : cols = [] := by
        have h0 : cols.map baseName = [] := by simpa using hmap
        simpa using h0
      subst hnil
      rfl
  | cons g gs ih =>
      intro cols output p start stop hmap hcounts hchain
      obtain ⟨d, c⟩ := g
      have hc : 1 ≤ c := hcounts (d, c) (by simp)
      cases c with
      | zero => omega
      | succ cp =>
          simp only [List.map_cons] at hchain
          rw [List.chain'_cons] at hchain
          obtain ⟨hpd, hchain2⟩ := hchain
          cases cols with
          | nil => simp [List.replicate_succ] at hmap
          | cons x xs =>
              simp only [List.map_cons, List.flatten_cons, List.replicate_succ,
                List.cons_append, List.cons.injEq] at hmap
              obtain ⟨hx, hxs⟩ := hmap
              rw [stanScan_cons_new sl x p xs output start stop
                (by rw [hx]; exact Ne.symm hpd), hx]
              have hxsl : cp ≤ xs.length := by
                have h1 := congrArg List.length hxs
                simp only [List.length_map, List.length_append,
                  List.length_replicate] at h1
                omega
              have htake : (xs.take cp).map baseName = List.replicate cp d := by
                rw [List.map_take, hxs]
                exact List.take_left' (by simp)
              have hdrop : (xs.drop cp).map baseName
                  = (gs.map (fun g => List.replicate g.2 g.1)).flatten := by
                rw [List.map_drop, hxs]
                exact List.drop_left' (by simp)
              by_cases hmem : some p ∈ output.map Prod.fst
              · rw [if_pos hmem]
                simp only [runsExcept]
                rw [if_pos hmem]
              · rw [if_neg hmem]
                simp only [runsExcept]
                rw [if_neg hmem]
                rw [show xs = xs.take cp ++ xs.drop cp from (List.take_append_drop cp xs).symm]
                rw [stanScan_run sl d (xs.take cp) (xs.drop cp)
                  (output ++ [(some p, sl start stop)]) stop (stop + 1)
                  (fun y hy => List.eq_of_mem_replicate
                    (by rw [← htake]; exact List.mem_map_of_mem baseName hy))]
                have hlen : (xs.take cp).length = cp := by
                  rw [List.length_take]
                  omega
                rw [hlen]
                rw [ih (xs.drop cp) (output ++ [(some p, sl start stop)]) d stop
                  (stop + 1 + cp) hdrop (fun g hg => hcounts g (by simp [hg])) hchain2]
                have harith : stop + 1 + cp = stop + (cp + 1) := by omega
                rw [harith]

lemma stanScan_top {δ : Type} (sl : Nat → Nat → δ) (d : String) (c : Nat)
    (gs : List (String × Nat)) (cols : List String)
    (hmap : cols.map baseName
      = (((d, c) :: gs).map (fun g => List.replicate g.2 g.1)).flatten)
    (hc : 1 ≤ c) (hcounts : ∀ g ∈ gs, 1 ≤ g.2)
    (hchain : List.Chain' (fun a b => a ≠ b) (d :: gs.map Prod.fst)) :
    stanScan sl cols [] none 0 0 = runsExcept sl gs [] d 0 c := by
  cases c with
  | zero => omega
  | succ cp =>
      cases cols with
      | nil => simp [List.replicate_succ] at hmap
      | cons x xs =>
          simp only [List.map_cons, List.flatten_cons, List.replicate_succ,
            List.cons_append, List.cons.injEq] at hmap
          obtain ⟨hx, hxs⟩ := hmap
          rw [stanScan_cons_start sl x xs [] 0 0, hx]
          have hxsl : cp ≤ xs.length := by
            have h1 := congrArg List.length hxs
            simp only [List.length_map, List.length_append,
              List.length_replicate] at h1
            omega
          have htake : (xs.take cp).map baseName = List.replicate cp d := by
            rw [List.map_take, hxs]
            exact List.take_left' (by simp)
          have hdrop : (xs.drop cp).map baseName
              = (gs.map (fun g => List.replicate g.2 g.1)).flatten := by
            rw [List.map_drop, hxs]
            exact List.drop_left' (by simp)
          rw [show xs = xs.take cp ++ xs.drop cp from (List.take_append_drop cp xs).symm]
          rw [stanScan_run sl d (xs.take cp) (xs.drop cp) [] 0 (0 + 1)
            (fun y hy => List.eq_of_mem_replicate
              (by rw [← htake]; exact List.mem_map_of_mem baseName hy))]
          have hlen : (xs.take cp).length = cp := by
            rw [List.length_take]
            omega
          rw [hlen]
          rw [stanScan_groups sl gs (xs.drop cp) [] d 0 (0 + 1 + cp) hdrop hcounts hchain]
          have harith : 0 + 1 + cp = cp + 1 := by omega
          rw [harith]

lemma runsExcept_ok {δ : Type} (sl : Nat → Nat → δ) :
    ∀ (gs : List (String × Nat)) (output : List (Option String × δ))
      (p : String) (start stop : Nat),
      some p ∉ output.map Prod.fst →
      (∀ g ∈ gs, some g.1 ∉ output.map Prod.fst) →
      (p :: gs.map Prod.fst).Nodup →
      runsExcept sl gs output p start stop
        = Except.ok (output ++ (some p, sl start stop) :: specEntries sl gs stop) := by
  intro gs
  induction gs with
  | nil =>
      intro output p start stop hp _ _
      simp [runsExcept, hp, specEntries]
  | cons g gs ih =>
      intro output p start stop hp hgs hnd
      obtain ⟨d, c⟩ := g
      simp only [List.map_cons, List.nodup_cons, List.mem_cons] at hnd
      obtain ⟨hpn, hdn, hnd2⟩ := hnd
      have hpd : p ≠ d := fun h => hpn (Or.inl (by rw [h]))
      simp only [runsExcept]
      rw [if_neg hp]
      have hd2 : some d ∉ (output ++ [(some p, sl start stop)]).map Prod.fst := by
        simp only [List.map_append, List.mem_append, List.map_cons, List.map_nil,
          List.mem_singleton]
        rintro (h | h)
        · exact hgs (d, c) (by simp) h
        · exact hpd (Option.some.inj h).symm
      have hgs2 : ∀ g ∈ gs, some g.1 ∉ (output ++ [(some p, sl start stop)]).map Prod.fst := by
        intro g hg
        simp only [List.map_append, List.mem_append, List.map_cons, List.map_nil,
          List.mem_singleton]
        rintro (h | h)
        · exact hgs g (by simp [hg]) h
        · have hg1 : g.1 = p := by injection h with h2
          exact hpn (Or.inr (by rw [← hg1]; exact List.mem_map_of_mem Prod.fst hg))
      rw [ih (output ++ [(some p, sl start stop)]) d stop (stop + c) hd2 hgs2
        (by rw [List.nodup_cons]; exact ⟨hdn, hnd2⟩)]
      simp [specEntries]

lemma runsExcept_error {δ : Type} (sl : Nat → Nat → δ) :
    ∀ (gs : List (String × Nat)) (output : List (Option String × δ))
      (p : String) (start stop : Nat),
      (∃ q ∈ p :: gs.map Prod.fst, some q ∈ output.map Prod.fst)
        ∨ ¬ (p :: gs.map Prod.fst).Nodup →
      runsExcept sl gs output p start stop = Except.error "Found repeated column name" := by
  intro gs
  induction gs with
  | nil =>
      intro output p start stop h
      rcases h with ⟨q, hq, hmem⟩ | h
      · simp only [List.map_nil, List.mem_singleton] at hq
        subst hq
        simp [runsExcept, hmem]
      · exact absurd (by simp) h
  | cons g gs ih =>
      intro output p start stop h
      obtain ⟨d, c⟩ := g
      by_cases hp : some p ∈ output.map Prod.fst
      · simp [runsExcept, hp]
      · simp only [runsExcept]
        rw [if_neg hp]
        apply ih
        rcases h with ⟨q, hq, hqmem⟩ | hnodup
        · simp only [List.map_cons, List.mem_cons] at hq
          rcases hq with hq | hq
          · subst hq
            exact absurd hqmem hp
          · refine Or.inl ⟨q, by simpa using hq, ?_⟩
            simp [hqmem]
        · by_cases hpmem : p ∈ d :: gs.map Prod.fst
          · refine Or.inl ⟨p, by simpa using hpmem, ?_⟩
            simp
          · refine Or.inr ?_
            intro hnd
            exact hnodup (by
              rw [List.map_cons, List.nodup_cons]
              exact ⟨by simpa using hpmem, hnd⟩)

lemma specEntries_map_fst {δ : Type} (sl : Nat → Nat → δ) :
    ∀ (gs : List (String × Nat)) (off : Nat),
      (specEntries sl gs off).map Prod.fst = gs.map (fun g => some g.1) := by
  intro gs
  induction gs with
  | nil => intro off; rfl
  | cons g gs ih =>
      intro off
      obtain ⟨d, c⟩ := g
      simp [specEntries, ih]

lemma specEntries_join {Q : Type} (data : List Q) :
    ∀ (gs : List (String × Nat)) (off : Nat),
      ((specEntries (slice1 data) gs off).map Prod.snd).flatten
        = (data.drop off).take ((gs.map Prod.snd).sum) := by
  intro gs
  induction gs with
  | nil => intro off; simp [specEntries]
  | cons g gs ih =>
      intro off
      obtain ⟨d, c⟩ := g
      simp only [specEntries, List.map_cons, List.flatten_cons, List.sum_cons]
      rw [ih (off + c)]
      simp only [slice1]
      rw [Nat.add_sub_cancel_left]
      rw [List.take_add]
      congr 1
      rw [List.drop_drop]

lemma specEntries_row {Q : Type} (d2 : List (List Q)) :
    ∀ (gs : List (String × Nat)) (off j : Nat), j < d2.length →
      ((specEntries (slice2 d2) gs off).map Prod.snd).map (fun m => m.getD j [])
        = (specEntries (slice1 (d2.getD j [])) gs off).map Prod.snd := by
  intro gs
  induction gs with
  | nil => intro off j _; rfl
  | cons g gs ih =>
      intro off j hj
      obtain ⟨d, c⟩ := g
      simp only [specEntries, List.map_cons]
      rw [ih (off + c) j hj]
      congr 1
      exact getD_map_lt (fun row => slice1 row off (off + c)) [] [] d2 j hj

lemma flatten_replicate_length :
    ∀ (gs : List (String × Nat)),
      ((gs.map (fun g => List.replicate g.2 g.1)).flatten).length
        = (gs.map Prod.snd).sum := by
  intro gs
  induction gs with
  | nil => rfl
  | cons g gs ih =>
      obtain ⟨d, c⟩ := g
      simp [ih]

/-! ## Theorems: column demultiplexer -/

/-- C1: on a nonempty column list whose base names form contiguous runs of N
distinct names with positive widths, stan_to_dict_numpy (1-D or 2-D data)
returns exactly one entry per base name in first-seen order, each valued by
the slice of the aligned axis over that name's contiguous run, and the
entries concatenate back to the original data when the data is aligned with
the columns; while on a column list whose maximal-run decomposition repeats a
base name in two non-adjacent runs it returns the repeated-column error. -/
theorem C1_stan_to_dict_numpy :
    (∀ {Q : Type} (cols : List String) (groups : List (String × Nat))
        (d1 : List Q) (d2 : List (List Q)),
        cols.map baseName = (groups.map (fun g => List.replicate g.2 g.1)).flatten →
        (∀ g ∈ groups, 1 ≤ g.2) →
        (groups.map Prod.fst).Nodup →
        groups ≠ [] →
        stan_to_dict_numpy1 cols d1 = Except.ok (specEntries (slice1 d1) groups 0)
        ∧ (specEntries (slice1 d1) groups 0).map Prod.fst
            = groups.map (fun g => some g.1)
        ∧ (d1.length = cols.length →
            ((specEntries (slice1 d1) groups 0).map Prod.snd).flatten = d1)
        ∧ stan_to_dict_numpy2 cols d2 = Except.ok (specEntries (slice2 d2) groups 0)
        ∧ (∀ j : Nat, j < d2.length → (d2.getD j []).length = cols.length →
            (((specEntries (slice2 d2) groups 0).map Prod.snd).map
                (fun m => m.getD j [])).flatten = d2.getD j []))
    ∧ (∀ {Q : Type} (cols : List String) (groups : List (String × Nat))
        (d1 : List Q) (d2 : List (List Q)),
        cols.map baseName = (groups.map (fun g => List.replicate g.2 g.1)).flatten →
        (∀ g ∈ groups, 1 ≤ g.2) →
        List.Chain' (fun a b => a ≠ b) (groups.map Prod.fst) →
        ¬ (groups.map Prod.fst).Nodup →
        stan_to_dict_numpy1 cols d1 = Except.error "Found repeated column name"
        ∧ stan_to_dict_numpy2 cols d2 = Except.error "Found repeated column name") := by
  constructor
  · intro Q cols groups d1 d2 hmap hcounts hnd hne
    match groups, hne with
    | (d, c) :: gs, _ =>
      have hc : 1 ≤ c := hcounts (d, c) (by simp)
      have hcounts2 : ∀ g ∈ gs, 1 ≤ g.2 := fun g hg => hcounts g (by simp [hg])
      simp only [List.map_cons] at hnd
      have hchain : List.Chain' (fun a b => a ≠ b) (d :: gs.map Prod.fst) :=
        List.Pairwise.chain' hnd
      have hsum : cols.length = (((d, c) :: gs).map Prod.snd).sum := by
        have h2 := congrArg List.length hmap
        rw [List.length_map] at h2
        rw [h2, flatten_replicate_length]
      refine ⟨?_, specEntries_map_fst (slice1 d1) ((d, c) :: gs) 0, ?_, ?_, ?_⟩
      · show stanScan (slice1 d1) cols [] none 0 0 = _
        rw [stanScan_top (slice1 d1) d c gs cols hmap hc hcounts2 hchain,
          runsExcept_ok (slice1 d1) gs [] d 0 c (by simp) (by simp) hnd]
        simp [specEntries]
      · intro hlen
        rw [specEntries_join d1 ((d, c) :: gs) 0, List.drop_zero, ← hsum, ← hlen]
        exact List.take_length d1
      · show stanScan (slice2 d2) cols [] none 0 0 = _
        rw [stanScan_top (slice2 d2) d c gs cols hmap hc hcounts2 hchain,
          runsExcept_ok (slice2 d2) gs [] d 0 c (by simp) (by simp) hnd]
        simp [specEntries]
      · intro j hj hrow
        rw [specEntries_row d2 ((d, c) :: gs) 0 j hj,
          specEntries_join (d2.getD j []) ((d, c) :: gs) 0, List.drop_zero,
          ← hsum, ← hrow]
        exact List.take_length (d2.getD j [])
  · intro Q cols groups d1 d2 hmap hcounts hchain hnotnd
    match groups with
    | [] => simp at hnotnd
    | (d, c) :: gs =>
      have hc : 1 ≤ c := hcounts (d, c) (by simp)
      have hcounts2 : ∀ g ∈ gs, 1 ≤ g.2 := fun g hg => hcounts g (by simp [hg])
      simp only [List.map_cons] at hchain hnotnd
      have herr := runsExcept_error (slice1 d1) gs [] d 0 c (Or.inr hnotnd)
      have herr2 := runsExcept_error (slice2 d2) gs [] d 0 c (Or.inr hnotnd)
      constructor
      · show stanScan (slice1 d1) cols [] none 0 0 = _
        rw [stanScan_top (slice1 d1) d c gs cols hmap hc hcounts2 hchain, herr]
      · show stanScan (slice2 d2) cols [] none 0 0 = _
        rw [stanScan_top (slice2 d2) d c gs cols hmap hc hcounts2 hchain, herr2]

theorem C1_witness :
    stan_to_dict_numpy1 ["k", "delta.1", "delta.2"] [(10 : Int), 20, 30]
      = Except.ok [(some "k", [10]), (some "delta", [20, 30])]
    ∧ stan_to_dict_numpy1 ["a", "b", "a.1"] [(1 : Int), 2, 3]
      = Except.error "Found repeated column name" := by
  constructor
  · have h := (C1_stan_to_dict_numpy.1 ["k", "delta.1", "delta.2"]
        [("k", 1), ("delta", 2)] [(10 : Int), 20, 30] ([] : List (List Int))
        (by decide) (by decide) (by decide) (by decide)).1
    exact h.trans (by rfl)
  · exact (C1_stan_to_dict_numpy.2 ["a", "b", "a.1"]
        [("a", 1), ("b", 1), ("a", 1)] [(1 : Int), 2, 3] ([] : List (List Int))
        (by decide) (by decide) (by simp) (by decide)).1

/-- C10: on an empty column-name sequence stan_to_dict_numpy does not return
an empty mapping — it returns exactly one entry whose key is the None base
name and whose value is an empty slice of the data array. -/
theorem C10_empty_columns :
    ∀ {Q : Type} (d1 : List Q) (d2 : List (List Q)),
      stan_to_dict_numpy1 ([] : List String) d1 = Except.ok [(none, [])]
      ∧ stan_to_dict_numpy2 ([] : List String) d2
          = Except.ok [(none, d2.map (fun _ => ([] : List Q)))] := by
  intro Q d1 d2
  constructor
  · show stanScan (slice1 d1) [] [] none 0 0 = _
    simp [stanScan, slice1]
  · show stanScan (slice2 d2) [] [] none 0 0 = _
    simp [stanScan, slice2, slice1]
